import Mathlib

/-!
Verification of the steppy-examples step-graph pipeline against its
specification.  The repository's own files are tutorial notebooks defining
transformer classes (`NormalizationTransformer`, `CountVecTransformer`,
`AvgTransformer`, ...) and wiring them into `Step` graphs of the external
`steppy` library.  The transformers are embedded directly from the notebook
source; the `Step`/`Adapter` execution engine, whose source is not in the
repository, is modelled from the specification (sections 3, 4.1, 4.2).
-/

namespace Steppy

/-- Association-list lookup, first binding wins (models Python dict lookup
for our purposes: the engine state maps are only ever extended in front). -/
def alookup {κ ν : Type} [DecidableEq κ] : List (κ × ν) → κ → Option ν
  | [], _ => none
  | (k, v) :: rest, key => if key = k then some v else alookup rest key

@[simp] theorem alookup_nil {κ ν : Type} [DecidableEq κ] (key : κ) :
    alookup ([] : List (κ × ν)) key = none := rfl

@[simp] theorem alookup_cons {κ ν : Type} [DecidableEq κ] (k : κ) (v : ν)
    (rest : List (κ × ν)) (key : κ) :
    alookup ((k, v) :: rest) key = if key = k then some v else alookup rest key := rfl

/-- An output bundle (section 3): a mapping from string key to value,
produced by one transform invocation or supplied as an external input. -/
abbrev Bundle (Name V : Type) := List (Name × V)

/-- One adapter mapping entry (section 3): transformer-argument name,
source name (an upstream step or an external input bundle), output key. -/
structure AdapterEntry (Name : Type) where
  arg : Name
  src : Name
  key : Name

/-- Error taxonomy of section 7 (the cases the engine model can raise). -/
inductive PipeErr
  | resolution
  | graph
  | notFitted
  | fuel
deriving DecidableEq

/-- Look a source name up in the upstream outputs first, then in the
external inputs (section 4.1). -/
def lookupSource {Name V : Type} [DecidableEq Name]
    (ups ext : List (Name × Bundle Name V)) (src : Name) : Option (Bundle Name V) :=
  match alookup ups src with
  | some b => some b
  | none => alookup ext src

/-- Modelled from the spec: `Adapter.resolve` (section 4.1) — the
`steppy.adapter` source is not in the repository.  For each mapping entry,
look the named source up in upstream outputs first, then external inputs;
fail with a ResolutionError if the source is absent from both or the
requested key is absent from the found bundle. -/
def resolve {Name V : Type} [DecidableEq Name] :
    List (AdapterEntry Name) → List (Name × Bundle Name V) →
    List (Name × Bundle Name V) → Except PipeErr (Bundle Name V)
  | [], _, _ => .ok []
  | e :: rest, ups, ext =>
    match lookupSource ups ext e.src with
    | none => .error .resolution
    | some b =>
      match alookup b e.key with
      | none => .error .resolution
      | some v =>
        match resolve rest ups ext with
        | .error err => .error err
        | .ok tail => .ok ((e.arg, v) :: tail)

/-- Evaluation mode of the two top-level entry points (section 4.2):
`fit_transform` fits transformers that are not already fitted or loaded,
`transform` never fits. -/
inductive Mode
  | fit
  | transform
deriving DecidableEq

/-- Observable transformer invocations, recorded in order. -/
inductive Event (Name : Type)
  | fit (s : Name)
  | tfm (s : Name)
deriving DecidableEq

/-- Modelled from the spec: one `Step` of the graph (section 3) — the
`steppy.base.Step` source is not in the repository.  A step wraps one
transformer (its fit and transform operations, over a fitted-state type
`S`), its upstream step names in declared order, its external input-bundle
names, an optional adapter, and the three policy flags. -/
structure StepDef (Name V S : Type) where
  input_steps : List Name
  input_data : List Name
  adapter : Option (List (AdapterEntry Name))
  persist_output : Bool
  load_persisted_output : Bool
  cache_output : Bool
  tfit : Bundle Name V → S
  ttfm : S → Bundle Name V → Bundle Name V

/-- Modelled from the spec: the mutable stores of sections 4.3 and 4.4
plus the fitted-transformer state, with the trace of transformer
invocations made observable.  `pouts` is the per-step persisted-output
slot of the persistence store, `pmodels` the persisted-model slot,
`cache` the per-run cache store. -/
structure EngState (Name V S : Type) where
  fitted : List (Name × S)
  pmodels : List (Name × S)
  pouts : List (Name × Bundle Name V)
  cache : List (Name × Bundle Name V)
  trace : List (Event Name)

/-- The clean starting state of a fresh run over an empty experiment
directory. -/
def EngState.clean (Name V S : Type) : EngState Name V S :=
  ⟨[], [], [], [], []⟩

/-- Step 1 of the section 4.2 algorithm: if `cache_output` is enabled and a
cache record exists for this step, return it. -/
def cacheCheck {Name V S : Type} [DecidableEq Name]
    (step : StepDef Name V S) (st : EngState Name V S) (name : Name) :
    Option (Bundle Name V) :=
  if step.cache_output then alookup st.cache name else none

/-- Step 2 of the section 4.2 algorithm: if `load_persisted_output` is
enabled and a persisted output record exists for this step, return it. -/
def persistCheck {Name V S : Type} [DecidableEq Name]
    (step : StepDef Name V S) (st : EngState Name V S) (name : Name) :
    Option (Bundle Name V) :=
  if step.load_persisted_output then alookup st.pouts name else none

/-- The fitted or loaded transformer state available for a step: its
in-run fitted state, or a persisted model record from a prior run. -/
def getState {Name V S : Type} [DecidableEq Name]
    (st : EngState Name V S) (name : Name) : Option S :=
  match alookup st.fitted name with
  | some s => some s
  | none => alookup st.pmodels name

/-- Steps 7 and 8 of the section 4.2 algorithm: write the output bundle to
the persistence store and/or the cache store according to the policy. -/
def recordOut {Name V S : Type}
    (step : StepDef Name V S) (name : Name) (out : Bundle Name V)
    (st : EngState Name V S) : EngState Name V S :=
  let st1 := if step.persist_output then { st with pouts := (name, out) :: st.pouts } else st
  if step.cache_output then { st1 with cache := (name, out) :: st1.cache } else st1

/-- Steps 5 and 6 of the section 4.2 algorithm: in fit mode an unfitted,
unloaded transformer is fitted first; transform mode never fits and fails
with an error when no fitted, persisted, or loaded state exists.  Then the
transform operation runs and its output is recorded per policy. -/
def finishStep {Name V S : Type} [DecidableEq Name]
    (mode : Mode) (name : Name) (step : StepDef Name V S)
    (args : Bundle Name V) (st : EngState Name V S) :
    EngState Name V S × Except PipeErr (Bundle Name V) :=
  match getState st name with
  | some s =>
    let out := step.ttfm s args
    (recordOut step name out { st with trace := st.trace ++ [.tfm name] }, .ok out)
  | none =>
    match mode with
    | .transform => (st, .error .notFitted)
    | .fit =>
      let s := step.tfit args
      let out := step.ttfm s args
      (recordOut step name out
        { st with fitted := (name, s) :: st.fitted,
                  trace := st.trace ++ [.fit name, .tfm name] },
       .ok out)

/-- Restrict the caller-supplied external input bundles to the bundle names
a step declares in `input_data` (section 4.2, step 3). -/
def selectData {Name V : Type} [DecidableEq Name]
    (ext : List (Name × Bundle Name V)) (names : List Name) :
    List (Name × Bundle Name V) :=
  names.filterMap fun n => (alookup ext n).map fun b => (n, b)

/-- Step 4 of the section 4.2 algorithm: resolve transformer arguments via
the adapter, or, when no adapter is supplied for a step with exactly one
upstream and no external inputs, pass the upstream's whole bundle through
(section 4.1, default behaviour). -/
def resolveArgs {Name V S : Type} [DecidableEq Name]
    (step : StepDef Name V S) (ups ext : List (Name × Bundle Name V)) :
    Except PipeErr (Bundle Name V) :=
  match step.adapter with
  | some m => resolve m ups ext
  | none =>
    match step.input_steps, step.input_data with
    | [u], [] =>
      match alookup ups u with
      | some b => .ok b
      | none => .error .resolution
    | _, _ => .error .resolution

/-- Evaluate a list of upstream steps left to right (declared order,
section 5), threading the engine state and pairing each upstream name with
its output bundle; the first failure aborts the walk. -/
def evalList {Name V S : Type}
    (f : Name → EngState Name V S → EngState Name V S × Except PipeErr (Bundle Name V)) :
    List Name → EngState Name V S →
    EngState Name V S × Except PipeErr (List (Name × Bundle Name V))
  | [], st => (st, .ok [])
  | n :: ns, st =>
    match f n st with
    | (st1, .error e) => (st1, .error e)
    | (st1, .ok b) =>
      match evalList f ns st1 with
      | (st2, .error e) => (st2, .error e)
      | (st2, .ok bs) => (st2, .ok ((n, b) :: bs))

/-- Modelled from the spec: the recursive, depth-first evaluation of one
step (section 4.2) — the engine source is not in the repository.  The
`visiting` ancestor stack rejects cyclic graphs with a GraphError
(section 7); `fuel` bounds the recursion depth and is irrelevant on any
graph the cycle check admits. -/
def evalStep {Name V S : Type} [DecidableEq Name]
    (reg : Name → Option (StepDef Name V S)) :
    Nat → List Name → Mode → List (Name × Bundle Name V) → Name →
    EngState Name V S → EngState Name V S × Except PipeErr (Bundle Name V)
  | 0, _, _, _, _, st => (st, .error .fuel)
  | fuel + 1, visiting, mode, ext, name, st =>
    if name ∈ visiting then (st, .error .graph) else
    match reg name with
    | none => (st, .error .graph)
    | some step =>
      match cacheCheck step st name with
      | some b => (st, .ok b)
      | none =>
        match persistCheck step st name with
        | some b => (st, .ok b)
        | none =>
          match evalList
              (fun n s => evalStep reg fuel (name :: visiting) mode ext n s)
              step.input_steps st with
          | (st1, .error e) => (st1, .error e)
          | (st1, .ok ups) =>
            match resolveArgs step ups (selectData ext step.input_data) with
            | .error e => (st1, .error e)
            | .ok args => finishStep mode name step args st1

/-- Number of transform invocations of step `s` in a trace. -/
def tfmCount {Name : Type} [DecidableEq Name] (tr : List (Event Name)) (s : Name) : Nat :=
  tr.countP fun e => decide (e = Event.tfm s)

/-- Number of fit invocations of step `s` in a trace. -/
def fitCount {Name : Type} [DecidableEq Name] (tr : List (Event Name)) (s : Name) : Nat :=
  tr.countP fun e => decide (e = Event.fit s)

/-! ## Concrete step graphs from the notebooks

Transformer fit/transform behaviour is abstracted to small numeric
functions: the claims about the engine concern which operations run, in
what order and how often, not the numerics of the wrapped sklearn
estimators. -/

/-- The linear chain of tutorial `2-multi-step.ipynb`:
`Normalizer → PCA → LogReg`, no caching or persistence anywhere, adapters
as in the notebook (`PCA` uses the default single-upstream pass-through). -/
def chainReg : String → Option (StepDef String Nat Nat) := fun n =>
  if n = "Normalizer" then
    some ⟨[], ["input"], some [⟨"X", "input", "X"⟩], false, false, false,
          fun _ => 1, fun _ _ => [("X", 10)]⟩
  else if n = "PCA" then
    some ⟨["Normalizer"], [], none, false, false, false,
          fun _ => 2, fun _ _ => [("X", 20)]⟩
  else if n = "LogReg" then
    some ⟨["PCA"], ["input"], some [⟨"X", "PCA", "X"⟩, ⟨"y", "input", "y"⟩],
          false, false, false, fun _ => 3, fun _ _ => [("y_pred", 30)]⟩
  else none

/-- External data bundle for the chain, shaped like the notebook's
`data_train = {'input': {'X': ..., 'y': ...}}`. -/
def chainExt : List (String × Bundle String Nat) := [("input", [("X", 1), ("y", 2)])]

/-- The diamond of the persistence/caching notebook:
`CountVec → TF-IDF → {SparseLogReg, RF} → Ensembler`, with `cache_output`
on the shared `TF-IDF` step given by the flag. -/
def diamondReg (cache : Bool) : String → Option (StepDef String Nat Nat) := fun n =>
  if n = "CountVec" then
    some ⟨[], ["input"], some [⟨"X", "input", "text"⟩], false, false, false,
          fun _ => 1, fun _ _ => [("X", 11)]⟩
  else if n = "TF-IDF" then
    some ⟨["CountVec"], [], none, false, false, cache,
          fun _ => 2, fun _ _ => [("X", 12)]⟩
  else if n = "SparseLogReg" then
    some ⟨["TF-IDF"], ["input"], some [⟨"X", "TF-IDF", "X"⟩, ⟨"y", "input", "label"⟩],
          false, false, false, fun _ => 3, fun _ _ => [("y_proba", 13)]⟩
  else if n = "RF" then
    some ⟨["TF-IDF"], ["input"], some [⟨"X", "TF-IDF", "X"⟩, ⟨"y", "input", "label"⟩],
          false, false, false, fun _ => 4, fun _ _ => [("y_proba", 14)]⟩
  else if n = "Ensembler" then
    some ⟨["SparseLogReg", "RF"], [],
          some [⟨"y_proba_1", "SparseLogReg", "y_proba"⟩, ⟨"y_proba_2", "RF", "y_proba"⟩],
          false, false, false, fun _ => 5, fun _ _ => [("y_proba", 15)]⟩
  else none

/-- External data bundle for the diamond, shaped like the notebook's
`data_fit = {'input': {'text': ..., 'label': ...}}`. -/
def diamondExt : List (String × Bundle String Nat) := [("input", [("text", 1), ("label", 2)])]

/-- A two-step cyclic graph: `A` depends on `B` and `B` depends on `A`. -/
def cycleReg : String → Option (StepDef String Nat Nat) := fun n =>
  if n = "A" then some ⟨["B"], [], some [], false, false, false, fun _ => 1, fun _ _ => []⟩
  else if n = "B" then some ⟨["A"], [], some [], false, false, false, fun _ => 2, fun _ _ => []⟩
  else none

/-- The persistence pipeline of the notebook's experiment directory A:
as `diamondReg false` up to `SparseLogReg`, but `TF-IDF` has
`persist_output` and `load_persisted_output` enabled (the configuration
whose staleness hazard the notebook works around by deleting
`outputs/TF-IDF`). -/
def persistReg : String → Option (StepDef String Nat Nat) := fun n =>
  if n = "CountVec" then
    some ⟨[], ["input"], some [⟨"X", "input", "text"⟩], false, false, false,
          fun _ => 1, fun _ _ => [("X", 11)]⟩
  else if n = "TF-IDF" then
    some ⟨["CountVec"], [], none, true, true, false,
          fun _ => 2, fun _ _ => [("X", 12)]⟩
  else if n = "SparseLogReg" then
    some ⟨["TF-IDF"], ["input"], some [⟨"X", "TF-IDF", "X"⟩, ⟨"y", "input", "label"⟩],
          false, false, false, fun _ => 3, fun _ _ => [("y_proba", 13)]⟩
  else none

/-! ### A fan graph family: one shared step with `N` downstream consumers

Step `0` is the shared producer; steps `1 … N` each consume it; step
`N + 1` is the sink depending on all `N` consumers.  All policy flags are
off everywhere (the default). -/

/-- The shared producer, no inputs, no caching or persistence. -/
def fanStepA : StepDef Nat Nat Nat :=
  ⟨[], [], some [], false, false, false, fun _ => 1, fun _ _ => [(5, 9)]⟩

/-- A consumer of step `0` (default single-upstream pass-through). -/
def fanConsumer : StepDef Nat Nat Nat :=
  ⟨[0], [], none, false, false, false, fun _ => 2, fun _ _ => [(5, 7)]⟩

/-- The list `[k, k-1, …, 1]` of consumer names. -/
def consumers : Nat → List Nat
  | 0 => []
  | k + 1 => (k + 1) :: consumers k

/-- The sink step, consuming all `N` consumers. -/
def fanSink (N : Nat) : StepDef Nat Nat Nat :=
  ⟨consumers N, [], some [], false, false, false, fun _ => 3, fun _ _ => []⟩

/-- The fan registry for a given `N`. -/
def regFan (N : Nat) : Nat → Option (StepDef Nat Nat Nat) := fun n =>
  if n = 0 then some fanStepA
  else if n ≤ N then some fanConsumer
  else if n = N + 1 then some (fanSink N) else none

/-! ## Transformers defined in the notebooks (embedded from source)

Numeric arrays are embedded as lists of rationals (matrices as lists of
rows); the wrapped sklearn estimators and joblib are external and modelled
by their interface only. -/

/-- State of `NormalizationTransformer` (tutorial `2-multi-step.ipynb`,
cell 8): `self.mean` and `self.std`, both initialised to `None` by
`__init__`. -/
structure NormalizationTransformer where
  mean : Option (List ℚ)
  std : Option (List ℚ)
deriving DecidableEq

/-- A freshly constructed `NormalizationTransformer()`: both fields
`None`. -/
def NormalizationTransformer.fresh : NormalizationTransformer := ⟨none, none⟩

/-- Arithmetic mean of a list, `np.mean`. -/
def listMean (xs : List ℚ) : ℚ := xs.sum / xs.length

/-- The method `NormalizationTransformer.fit`: stores the per-column mean and
standard deviation (`np.mean(X, axis=0)`, `np.std(X, axis=0)`).  The
numeric standard deviation is numpy's, an external collaborator, passed in
as `npStd` per column. -/
def NormalizationTransformer.fit (npStd : List ℚ → ℚ) (X : List (List ℚ)) :
    NormalizationTransformer :=
  ⟨some (X.transpose.map listMean), some (X.transpose.map npStd)⟩

/-- The method `NormalizationTransformer.transform`: `(X - self.mean) / self.std`
element-wise, broadcasting mean and std over the rows; no guard on the
divisor.  Before `fit`, `self.mean` and `self.std` are `None` and the
numpy expression is not defined, embedded as `none`. -/
def NormalizationTransformer.transform (t : NormalizationTransformer)
    (X : List (List ℚ)) : Option (List (List ℚ)) :=
  match t.mean, t.std with
  | some m, some s =>
    some (X.map fun row => (row.zip (m.zip s)).map fun p => (p.1 - p.2.1) / p.2.2)
  | _, _ => none

/-- The method `NormalizationTransformer.persist`: `joblib.dump([self.mean, self.std],
filepath)` — the record holds exactly the two fitted fields. -/
def NormalizationTransformer.persist (t : NormalizationTransformer) :
    Option (List ℚ) × Option (List ℚ) := (t.mean, t.std)

/-- The method `NormalizationTransformer.load`: `self.mean, self.std =
joblib.load(filepath)`, overwriting the fresh instance's fields. -/
def NormalizationTransformer.load (_t : NormalizationTransformer)
    (r : Option (List ℚ) × Option (List ℚ)) : NormalizationTransformer :=
  ⟨r.1, r.2⟩

/-- The estimator-wrapper pattern shared by `CountVecTransformer`,
`StepsTfidfTransformer`, `SparseLogRegProbaTransformer`,
`RfClfTransformer`, `PCATransformer` and `LogRegTransformer`: the whole
state is `self.estimator`, `transform` is a pure function of the estimator
and the input, `persist` dumps the estimator and `load` restores it
(joblib is external and modelled as an exact round trip). -/
structure EstimatorTransformer (α : Type) where
  estimator : α

/-- The method `transform`: `predict` stands for the estimator-specific operation
(`self.estimator.transform(X)`, `predict_proba`, …). -/
def EstimatorTransformer.transform {α β γ : Type} (predict : α → β → γ)
    (t : EstimatorTransformer α) (X : β) : γ :=
  predict t.estimator X

/-- The method `persist`: `joblib.dump(self.estimator, filepath)`. -/
def EstimatorTransformer.persist {α : Type} (t : EstimatorTransformer α) : α :=
  t.estimator

/-- The method `load`: `self.estimator = joblib.load(filepath); return self`. -/
def EstimatorTransformer.load {α : Type} (_t : EstimatorTransformer α) (r : α) :
    EstimatorTransformer α :=
  ⟨r⟩

/-- Element-wise average of two matrices: `(y_proba_1 + y_proba_2) / 2`. -/
def matAvg (y1 y2 : List (List ℚ)) : List (List ℚ) :=
  List.zipWith (fun r1 r2 => List.zipWith (fun a b => (a + b) / 2) r1 r2) y1 y2

/-- The method `AvgTransformer.fit(self, y_proba_1, y_proba_2): return self` — no
state is read or written; the state is the empty `Unit`. -/
def AvgTransformer.fit (_state : Unit) (_y1 _y2 : List (List ℚ)) : Unit := ()

/-- The method `AvgTransformer.transform`: returns `{'y_proba': (y_proba_1 +
y_proba_2) / 2}`. -/
def AvgTransformer.transform (y1 y2 : List (List ℚ)) :
    List (String × List (List ℚ)) :=
  [("y_proba", matAvg y1 y2)]

/-- Fit followed by transform on the same inputs, as a step's
`fit_transform` performs for this transformer. -/
def AvgTransformer.fitTransform (y1 y2 : List (List ℚ)) :
    List (String × List (List ℚ)) :=
  match AvgTransformer.fit () y1 y2 with
  | () => AvgTransformer.transform y1 y2

/-! ## Invariants and trace predicates -/

/-- The cache entry and invocation counts of step `s` are the same in the
two states: nothing about `s` was touched. -/
def UntouchedAt {Name V S : Type} [DecidableEq Name] (s : Name)
    (st st' : EngState Name V S) : Prop :=
  alookup st'.cache s = alookup st.cache s ∧
  fitCount st'.trace s = fitCount st.trace s ∧
  tfmCount st'.trace s = tfmCount st.trace s

/-- Invariant for the caching guarantee: every `cache_output` step has
been fit and transformed at most once, and has not been invoked at all
unless its output sits in the cache. -/
def CacheInv {Name V S : Type} [DecidableEq Name]
    (reg : Name → Option (StepDef Name V S)) (st : EngState Name V S) : Prop :=
  ∀ name step, reg name = some step → step.cache_output = true →
    fitCount st.trace name ≤ 1 ∧ tfmCount st.trace name ≤ 1 ∧
    (alookup st.cache name = none →
      fitCount st.trace name = 0 ∧ tfmCount st.trace name = 0)

/-- A system with no fitted, persisted or loaded state for any step, and
an empty cache. -/
def Unfitted {Name V S : Type} (st : EngState Name V S) : Prop :=
  st.fitted = [] ∧ st.pmodels = [] ∧ st.pouts = [] ∧ st.cache = []

/-- The fit events of a trace. -/
def fitEvents {Name : Type} (tr : List (Event Name)) : List (Event Name) :=
  tr.filter fun e => match e with | .fit _ => true | .tfm _ => false

end Steppy

namespace Steppy

section Lemmas

variable {Name V S : Type} [DecidableEq Name]

set_option linter.unusedSectionVars false

@[simp] theorem tfmCount_nil (s : Name) : tfmCount ([] : List (Event Name)) s = 0 := rfl

@[simp] theorem fitCount_nil (s : Name) : fitCount ([] : List (Event Name)) s = 0 := rfl

@[simp] theorem tfmCount_append (tr1 tr2 : List (Event Name)) (s : Name) :
    tfmCount (tr1 ++ tr2) s = tfmCount tr1 s + tfmCount tr2 s :=
  List.countP_append _ _ _

@[simp] theorem fitCount_append (tr1 tr2 : List (Event Name)) (s : Name) :
    fitCount (tr1 ++ tr2) s = fitCount tr1 s + fitCount tr2 s :=
  List.countP_append _ _ _

@[simp] theorem tfmCount_cons_tfm (n s : Name) (tr : List (Event Name)) :
    tfmCount (Event.tfm n :: tr) s = (if n = s then 1 else 0) + tfmCount tr s := by
  simp only [tfmCount, List.countP_cons, decide_eq_true_eq, Event.tfm.injEq]
  split_ifs <;> omega

@[simp] theorem tfmCount_cons_fit (n s : Name) (tr : List (Event Name)) :
    tfmCount (Event.fit n :: tr) s = tfmCount tr s := by
  simp [tfmCount, List.countP_cons]

@[simp] theorem fitCount_cons_fit (n s : Name) (tr : List (Event Name)) :
    fitCount (Event.fit n :: tr) s = (if n = s then 1 else 0) + fitCount tr s := by
  simp only [fitCount, List.countP_cons, decide_eq_true_eq, Event.fit.injEq]
  split_ifs <;> omega

@[simp] theorem fitCount_cons_tfm (n s : Name) (tr : List (Event Name)) :
    fitCount (Event.tfm n :: tr) s = fitCount tr s := by
  simp [fitCount, List.countP_cons]

@[simp] theorem recordOut_trace (step : StepDef Name V S) (name : Name)
    (out : Bundle Name V) (st : EngState Name V S) :
    (recordOut step name out st).trace = st.trace := by
  unfold recordOut
  split_ifs <;> rfl

@[simp] theorem recordOut_fitted (step : StepDef Name V S) (name : Name)
    (out : Bundle Name V) (st : EngState Name V S) :
    (recordOut step name out st).fitted = st.fitted := by
  unfold recordOut
  split_ifs <;> rfl

theorem recordOut_cache_lookup_ne (step : StepDef Name V S) (name : Name)
    (out : Bundle Name V) (st : EngState Name V S) (s : Name) (h : s ≠ name) :
    alookup (recordOut step name out st).cache s = alookup st.cache s := by
  unfold recordOut
  split_ifs <;> simp [h]

theorem recordOut_cache_lookup_self (step : StepDef Name V S) (name : Name)
    (out : Bundle Name V) (st : EngState Name V S) (h : step.cache_output = true) :
    alookup (recordOut step name out st).cache name = some out := by
  unfold recordOut
  split_ifs <;> simp_all

theorem finishStep_untouched (mode : Mode) (name : Name) (step : StepDef Name V S)
    (args : Bundle Name V) (st : EngState Name V S) (s : Name) (h : s ≠ name) :
    UntouchedAt s st (finishStep mode name step args st).1 := by
  unfold finishStep UntouchedAt
  cases hg : getState st name with
  | some s0 =>
    simp [recordOut_cache_lookup_ne _ _ _ _ _ h, Ne.symm h]
  | none =>
    cases mode with
    | transform => simp [UntouchedAt]
    | fit => simp [recordOut_cache_lookup_ne _ _ _ _ _ h, Ne.symm h]

theorem untouchedAt_refl (s : Name) (st : EngState Name V S) : UntouchedAt s st st :=
  ⟨rfl, rfl, rfl⟩

theorem untouchedAt_trans (s : Name) (a b c : EngState Name V S)
    (h1 : UntouchedAt s a b) (h2 : UntouchedAt s b c) : UntouchedAt s a c :=
  ⟨h2.1.trans h1.1, h2.2.1.trans h1.2.1, h2.2.2.trans h1.2.2⟩

/-- Generic preservation along an upstream walk: a reflexive, transitive
relation preserved by each single evaluation is preserved by `evalList`. -/
theorem evalList_rel (P : EngState Name V S → EngState Name V S → Prop)
    (hrefl : ∀ st, P st st)
    (htrans : ∀ a b c, P a b → P b c → P a c)
    (f : Name → EngState Name V S → EngState Name V S × Except PipeErr (Bundle Name V))
    (hf : ∀ n st, P st (f n st).1) :
    ∀ (ns : List Name) (st : EngState Name V S), P st (evalList f ns st).1 := by
  intro ns
  induction ns with
  | nil => intro st; exact hrefl st
  | cons n ns ih =>
    intro st
    have h1 : P st (f n st).1 := hf n st
    rcases hfe : f n st with ⟨st1, r⟩
    rw [hfe] at h1
    cases r with
    | error e => simp only [evalList, hfe]; exact h1
    | ok b =>
      have h2 : P st1 (evalList f ns st1).1 := ih st1
      rcases hle : evalList f ns st1 with ⟨st2, r2⟩
      rw [hle] at h2
      cases r2 with
      | error e =>
        simp only [evalList, hfe, hle]
        exact htrans _ _ _ h1 h2
      | ok bs =>
        simp only [evalList, hfe, hle]
        exact htrans _ _ _ h1 h2

/-- A step on the `visiting` ancestor stack cannot be re-entered: its
cache entry and its invocation counts are unchanged by any evaluation. -/
theorem evalStep_untouched (reg : Name → Option (StepDef Name V S)) (s : Name) :
    ∀ (fuel : Nat) (visiting : List Name) (mode : Mode)
      (ext : List (Name × Bundle Name V)) (name : Name) (st : EngState Name V S),
      s ∈ visiting →
      UntouchedAt s st (evalStep reg fuel visiting mode ext name st).1 := by
  intro fuel
  induction fuel with
  | zero => intro visiting mode ext name st _; exact untouchedAt_refl s st
  | succ fuel ih =>
    intro visiting mode ext name st hs
    rw [evalStep]
    by_cases hv : name ∈ visiting
    · simp only [hv, if_true]; exact untouchedAt_refl s st
    · simp only [hv, if_false]
      cases hreg : reg name with
      | none => exact untouchedAt_refl s st
      | some step =>
        dsimp only
        cases hc : cacheCheck step st name with
        | some b => exact untouchedAt_refl s st
        | none =>
          dsimp only
          cases hp : persistCheck step st name with
          | some b => exact untouchedAt_refl s st
          | none =>
            dsimp only
            have hlist : UntouchedAt s st
                (evalList (fun n s' => evalStep reg fuel (name :: visiting) mode ext n s')
                  step.input_steps st).1 :=
              evalList_rel (UntouchedAt s) (untouchedAt_refl s) (untouchedAt_trans s) _
                (fun n st' => ih (name :: visiting) mode ext n st' (List.mem_cons_of_mem _ hs))
                step.input_steps st
            rcases hle : evalList (fun n s' => evalStep reg fuel (name :: visiting) mode ext n s')
                step.input_steps st with ⟨st1, r⟩
            rw [hle] at hlist
            cases r with
            | error e => exact hlist
            | ok ups =>
              dsimp only
              cases hra : resolveArgs step ups (selectData ext step.input_data) with
              | error e => exact hlist
              | ok args =>
                dsimp only
                have hne : s ≠ name := fun h => hv (h ▸ hs)
                exact untouchedAt_trans s _ _ _ hlist
                  (finishStep_untouched mode name step args st1 s hne)

theorem cacheCheck_none_elim (step : StepDef Name V S) (st : EngState Name V S)
    (name : Name) (hc : cacheCheck step st name = none)
    (hco : step.cache_output = true) : alookup st.cache name = none := by
  unfold cacheCheck at hc
  rw [hco] at hc
  simpa using hc

theorem finishStep_cacheInv (reg : Name → Option (StepDef Name V S))
    (mode : Mode) (name : Name) (step : StepDef Name V S)
    (args : Bundle Name V) (st : EngState Name V S)
    (hreg : reg name = some step)
    (hst : CacheInv reg st)
    (hname : step.cache_output = true →
      alookup st.cache name = none ∧
      fitCount st.trace name = 0 ∧ tfmCount st.trace name = 0) :
    CacheInv reg (finishStep mode name step args st).1 := by
  unfold finishStep
  cases hg : getState st name with
  | some s0 =>
    dsimp only
    intro n stp hr hco2
    by_cases hn : n = name
    · subst hn
      have hstep : stp = step := by rw [hreg] at hr; exact (Option.some.inj hr).symm
      subst hstep
      obtain ⟨hcnone, hf0, ht0⟩ := hname hco2
      refine ⟨?_, ?_, ?_⟩
      · simp [hf0]
      · simp [ht0]
      · intro hnone
        rw [recordOut_cache_lookup_self _ _ _ _ hco2] at hnone
        exact absurd hnone (by simp)
    · obtain ⟨h1, h2, h3⟩ := hst n stp hr hco2
      refine ⟨?_, ?_, ?_⟩
      · simpa [Ne.symm hn] using h1
      · simpa [Ne.symm hn] using h2
      · intro hnone
        rw [recordOut_cache_lookup_ne _ _ _ _ _ hn] at hnone
        have := h3 hnone
        constructor <;> simp [Ne.symm hn, this.1, this.2]
  | none =>
    cases mode with
    | transform => exact hst
    | fit =>
      dsimp only
      intro n stp hr hco2
      by_cases hn : n = name
      · subst hn
        have hstep : stp = step := by rw [hreg] at hr; exact (Option.some.inj hr).symm
        subst hstep
        obtain ⟨hcnone, hf0, ht0⟩ := hname hco2
        refine ⟨?_, ?_, ?_⟩
        · simp [hf0]
        · simp [ht0]
        · intro hnone
          rw [recordOut_cache_lookup_self _ _ _ _ hco2] at hnone
          exact absurd hnone (by simp)
      · obtain ⟨h1, h2, h3⟩ := hst n stp hr hco2
        refine ⟨?_, ?_, ?_⟩
        · simpa [Ne.symm hn] using h1
        · simpa [Ne.symm hn] using h2
        · intro hnone
          rw [recordOut_cache_lookup_ne _ _ _ _ _ hn] at hnone
          have := h3 hnone
          constructor <;> simp [Ne.symm hn, this.1, this.2]

/-- Evaluation preserves the caching invariant. -/
theorem evalStep_cacheInv (reg : Name → Option (StepDef Name V S)) :
    ∀ (fuel : Nat) (visiting : List Name) (mode : Mode)
      (ext : List (Name × Bundle Name V)) (name : Name) (st : EngState Name V S),
      CacheInv reg st →
      CacheInv reg (evalStep reg fuel visiting mode ext name st).1 := by
  intro fuel
  induction fuel with
  | zero => intro _ _ _ _ st h; exact h
  | succ fuel ih =>
    intro visiting mode ext name st hst
    rw [evalStep]
    by_cases hv : name ∈ visiting
    · simp only [hv, if_true]; exact hst
    · simp only [hv, if_false]
      cases hreg : reg name with
      | none => exact hst
      | some step =>
        dsimp only
        cases hc : cacheCheck step st name with
        | some b => exact hst
        | none =>
          dsimp only
          cases hp : persistCheck step st name with
          | some b => exact hst
          | none =>
            dsimp only
            have hinv : CacheInv reg st →
                CacheInv reg (evalList
                  (fun n s' => evalStep reg fuel (name :: visiting) mode ext n s')
                  step.input_steps st).1 :=
              evalList_rel (fun a b => CacheInv reg a → CacheInv reg b)
                (fun _ h => h) (fun _ _ _ hab hbc h => hbc (hab h)) _
                (fun n st' h' => ih (name :: visiting) mode ext n st' h')
                step.input_steps st
            have huntouched : UntouchedAt name st
                (evalList (fun n s' => evalStep reg fuel (name :: visiting) mode ext n s')
                  step.input_steps st).1 :=
              evalList_rel (UntouchedAt name) (untouchedAt_refl name)
                (untouchedAt_trans name) _
                (fun n st' => evalStep_untouched reg name fuel (name :: visiting) mode ext
                  n st' (List.mem_cons_self name visiting))
                step.input_steps st
            rcases hle : evalList
                (fun n s' => evalStep reg fuel (name :: visiting) mode ext n s')
                step.input_steps st with ⟨st1, r⟩
            rw [hle] at hinv huntouched
            have hst1 : CacheInv reg st1 := hinv hst
            cases r with
            | error e => exact hst1
            | ok ups =>
              dsimp only
              cases hra : resolveArgs step ups (selectData ext step.input_data) with
              | error e => exact hst1
              | ok args =>
                dsimp only
                refine finishStep_cacheInv reg mode name step args st1 hreg hst1 ?_
                intro hco
                have hcn : alookup st.cache name = none :=
                  cacheCheck_none_elim step st name hc hco
                obtain ⟨hf0, ht0⟩ := (hst name step hreg hco).2.2 hcn
                obtain ⟨hcq, hfe, hte⟩ := huntouched
                exact ⟨hcq.trans hcn, hfe.trans hf0, hte.trans ht0⟩

@[simp] theorem fitEvents_nil {Name : Type} : fitEvents ([] : List (Event Name)) = [] := rfl

@[simp] theorem fitEvents_append {Name : Type} (tr1 tr2 : List (Event Name)) :
    fitEvents (tr1 ++ tr2) = fitEvents tr1 ++ fitEvents tr2 := by
  simp [fitEvents]

@[simp] theorem fitEvents_tfm {Name : Type} (n : Name) (tr : List (Event Name)) :
    fitEvents (Event.tfm n :: tr) = fitEvents tr := rfl

@[simp] theorem fitEvents_fit {Name : Type} (n : Name) (tr : List (Event Name)) :
    fitEvents (Event.fit n :: tr) = Event.fit n :: fitEvents tr := rfl

theorem finishStep_transform_fitEvents (name : Name) (step : StepDef Name V S)
    (args : Bundle Name V) (st : EngState Name V S) :
    fitEvents (finishStep .transform name step args st).1.trace = fitEvents st.trace := by
  unfold finishStep
  cases getState st name <;> simp

/-- In transform mode no fit operation ever runs: the fit events of the trace
are exactly those already present before the call. -/
theorem evalStep_transform_fitEvents (reg : Name → Option (StepDef Name V S)) :
    ∀ (fuel : Nat) (visiting : List Name) (ext : List (Name × Bundle Name V))
      (name : Name) (st : EngState Name V S),
      fitEvents (evalStep reg fuel visiting .transform ext name st).1.trace =
        fitEvents st.trace := by
  intro fuel
  induction fuel with
  | zero => intro _ _ _ _; rfl
  | succ fuel ih =>
    intro visiting ext name st
    rw [evalStep]
    by_cases hv : name ∈ visiting
    · simp only [hv, if_true]
    · simp only [hv, if_false]
      cases hreg : reg name with
      | none => rfl
      | some step =>
        dsimp only
        cases hc : cacheCheck step st name with
        | some b => rfl
        | none =>
          dsimp only
          cases hp : persistCheck step st name with
          | some b => rfl
          | none =>
            dsimp only
            have hlist : fitEvents (evalList
                (fun n s' => evalStep reg fuel (name :: visiting) .transform ext n s')
                step.input_steps st).1.trace = fitEvents st.trace :=
              evalList_rel (fun a b => fitEvents b.trace = fitEvents a.trace)
                (fun _ => rfl) (fun _ _ _ hab hbc => hbc.trans hab) _
                (fun n st' => ih (name :: visiting) ext n st')
                step.input_steps st
            rcases hle : evalList
                (fun n s' => evalStep reg fuel (name :: visiting) .transform ext n s')
                step.input_steps st with ⟨st1, r⟩
            rw [hle] at hlist
            cases r with
            | error e => exact hlist
            | ok ups =>
              dsimp only
              cases hra : resolveArgs step ups (selectData ext step.input_data) with
              | error e => exact hlist
              | ok args =>
                dsimp only
                exact (finishStep_transform_fitEvents name step args st1).trans hlist

/-- On a system with no fitted, persisted or loaded state anywhere,
`transform` always fails, leaving the state untouched. -/
theorem evalStep_transform_unfitted (reg : Name → Option (StepDef Name V S)) :
    ∀ (fuel : Nat) (visiting : List Name) (ext : List (Name × Bundle Name V))
      (name : Name) (st : EngState Name V S), Unfitted st →
      ∃ e, evalStep reg fuel visiting .transform ext name st = (st, .error e) := by
  intro fuel
  induction fuel with
  | zero => intro _ _ _ st _; exact ⟨.fuel, rfl⟩
  | succ fuel ih =>
    intro visiting ext name st hU
    obtain ⟨hf, hm, hpo, hca⟩ := hU
    rw [evalStep]
    by_cases hv : name ∈ visiting
    · exact ⟨.graph, by rw [if_pos hv]⟩
    · rw [if_neg hv]
      cases hreg : reg name with
      | none => exact ⟨.graph, rfl⟩
      | some step =>
        dsimp only
        have hcc : cacheCheck step st name = none := by
          unfold cacheCheck
          rw [hca]
          simp
        have hpc : persistCheck step st name = none := by
          unfold persistCheck
          rw [hpo]
          simp
        rw [hcc, hpc]
        dsimp only
        cases hsteps : step.input_steps with
        | nil =>
          dsimp only [evalList]
          cases hra : resolveArgs step [] (selectData ext step.input_data) with
          | error e => exact ⟨e, rfl⟩
          | ok args =>
            dsimp only
            have hg : getState st name = none := by
              unfold getState
              rw [hf, hm]
              rfl
            refine ⟨.notFitted, ?_⟩
            unfold finishStep
            rw [hg]
        | cons n ns =>
          obtain ⟨e, he⟩ := ih (name :: visiting) ext n st ⟨hf, hm, hpo, hca⟩
          dsimp only [evalList]
          rw [he]
          exact ⟨e, rfl⟩

/-- Step 2 short-circuit (section 4.2): `load_persisted_output` with an
existing persisted record returns that record, touching nothing. -/
theorem load_persisted_short_circuit (reg : Name → Option (StepDef Name V S))
    (fuel : Nat) (name : Name) (step : StepDef Name V S) (b : Bundle Name V)
    (st : EngState Name V S) (ext : List (Name × Bundle Name V))
    (hreg : reg name = some step) (hco : step.cache_output = false)
    (hlp : step.load_persisted_output = true) (hb : alookup st.pouts name = some b) :
    evalStep reg (fuel + 1) [] .transform ext name st = (st, .ok b) := by
  rw [evalStep]
  rw [if_neg (List.not_mem_nil name)]
  rw [hreg]
  dsimp only
  have hcc : cacheCheck step st name = none := by
    unfold cacheCheck
    rw [hco]
    simp
  have hpc : persistCheck step st name = some b := by
    unfold persistCheck
    rw [hlp, hb]
    simp
  rw [hcc, hpc]

end Lemmas

section FanLemmas

/-- Evaluating the shared producer (step `0`) succeeds and appends exactly
one transform invocation of step `0` to the trace. -/
theorem fan_A_eval (N f : Nat) (ext : List (Nat × Bundle Nat Nat))
    (vis : List Nat) (h0 : 0 ∉ vis) (st : EngState Nat Nat Nat) :
    ∃ st', evalStep (regFan N) (f + 1) vis .fit ext 0 st = (st', .ok [(5, 9)]) ∧
      tfmCount st'.trace 0 = tfmCount st.trace 0 + 1 ∧
      (∀ n, n ≠ 0 → tfmCount st'.trace n = tfmCount st.trace n) := by
  rw [evalStep]
  rw [if_neg h0]
  have hz : regFan N 0 = some fanStepA := rfl
  rw [hz]
  dsimp only
  have hcc : cacheCheck fanStepA st 0 = none := rfl
  have hpc : persistCheck fanStepA st 0 = none := rfl
  rw [hcc, hpc]
  dsimp only [fanStepA, evalList, resolveArgs, resolve]
  unfold finishStep
  cases hg : getState st 0 with
  | some s0 =>
    dsimp only [recordOut]
    refine ⟨_, rfl, ?_, ?_⟩
    · simp
    · intro n hn
      simp [Ne.symm hn]
  | none =>
    dsimp only [recordOut]
    refine ⟨_, rfl, ?_, ?_⟩
    · simp
    · intro n hn
      simp [Ne.symm hn]

/-- Evaluating one consumer of the shared producer succeeds and appends
exactly one transform invocation of step `0`. -/
theorem fan_consumer_eval (N f : Nat) (ext : List (Nat × Bundle Nat Nat))
    (i : Nat) (h1 : 1 ≤ i) (h2 : i ≤ N) (st : EngState Nat Nat Nat) :
    ∃ st', evalStep (regFan N) (f + 2) [N + 1] .fit ext i st = (st', .ok [(5, 7)]) ∧
      tfmCount st'.trace 0 = tfmCount st.trace 0 + 1 := by
  rw [evalStep]
  have hvis : i ∉ [N + 1] := by simp; omega
  rw [if_neg hvis]
  have hi : regFan N i = some fanConsumer := by
    unfold regFan
    rw [if_neg (by omega), if_pos h2]
  rw [hi]
  dsimp only
  have hcc : cacheCheck fanConsumer st i = none := rfl
  have hpc : persistCheck fanConsumer st i = none := rfl
  rw [hcc, hpc]
  dsimp only [fanConsumer]
  obtain ⟨stA, hA, hcA, hoA⟩ := fan_A_eval N f ext (i :: [N + 1]) (by simp; omega) st
  dsimp only [evalList]
  rw [hA]
  dsimp only [resolveArgs, alookup]
  rw [if_pos rfl]
  unfold finishStep
  cases hg : getState stA i with
  | some s0 =>
    dsimp only [recordOut]
    refine ⟨_, rfl, ?_⟩
    have hi0 : ¬ i = 0 := by omega
    simp [hi0, hcA]
  | none =>
    dsimp only [recordOut]
    refine ⟨_, rfl, ?_⟩
    have hi0 : ¬ i = 0 := by omega
    simp [hi0, hcA]

/-- Evaluating the `k` consumers in sequence appends exactly `k` transform
invocations of step `0`. -/
theorem fan_consumers_eval (N f : Nat) (ext : List (Nat × Bundle Nat Nat)) :
    ∀ (k : Nat), k ≤ N → ∀ (st : EngState Nat Nat Nat), ∃ st' outs,
      evalList (fun n s => evalStep (regFan N) (f + 2) [N + 1] .fit ext n s)
          (consumers k) st = (st', .ok outs) ∧
        tfmCount st'.trace 0 = tfmCount st.trace 0 + k := by
  intro k
  induction k with
  | zero => intro _ st; exact ⟨st, [], rfl, by simp⟩
  | succ k ih =>
    intro hk st
    obtain ⟨st1, h1, hc1⟩ := fan_consumer_eval N f ext (k + 1) (by omega) hk st
    obtain ⟨st2, outs, h2, hc2⟩ := ih (by omega) st1
    refine ⟨st2, (k + 1, [(5, 7)]) :: outs, ?_, by omega⟩
    simp only [consumers, evalList, h1, h2]

/-- Evaluating the sink of the fan graph succeeds and the shared step `0`
is transformed exactly `N` times: once per downstream consumer. -/
theorem fan_eval (N f : Nat) (ext : List (Nat × Bundle Nat Nat)) :
    ∃ st' out, evalStep (regFan N) (f + 3) [] .fit ext (N + 1)
        (EngState.clean Nat Nat Nat) = (st', .ok out) ∧
      tfmCount st'.trace 0 = N := by
  rw [show f + 3 = (f + 2) + 1 from rfl]
  rw [evalStep]
  rw [if_neg (List.not_mem_nil _)]
  have hs : regFan N (N + 1) = some (fanSink N) := by
    unfold regFan
    rw [if_neg (by omega), if_neg (by omega), if_pos rfl]
  rw [hs]
  dsimp only
  have hcc : cacheCheck (fanSink N) (EngState.clean Nat Nat Nat) (N + 1) = none := rfl
  have hpc : persistCheck (fanSink N) (EngState.clean Nat Nat Nat) (N + 1) = none := rfl
  rw [hcc, hpc]
  dsimp only [fanSink]
  obtain ⟨st2, outs, h2, hc2⟩ :=
    fan_consumers_eval N f ext N (le_refl N) (EngState.clean Nat Nat Nat)
  rw [h2]
  dsimp only [resolveArgs, resolve]
  unfold finishStep
  cases hg : getState st2 (N + 1) with
  | some s0 =>
    dsimp only [recordOut]
    refine ⟨_, _, rfl, ?_⟩
    have hn0 : ¬ N + 1 = 0 := by omega
    have hc0 : tfmCount (EngState.clean Nat Nat Nat).trace 0 = 0 := rfl
    simp [hn0, hc0] at hc2 ⊢
    omega
  | none =>
    dsimp only [recordOut]
    refine ⟨_, _, rfl, ?_⟩
    have hn0 : ¬ N + 1 = 0 := by omega
    have hc0 : tfmCount (EngState.clean Nat Nat Nat).trace 0 = 0 := rfl
    simp [hn0, hc0] at hc2 ⊢
    omega

end FanLemmas

section ResolveLemmas

variable {Name V : Type} [DecidableEq Name]

/-- A failing `resolve` always reports a ResolutionError. -/
theorem resolve_error_eq (ups ext : List (Name × Bundle Name V)) :
    ∀ (mapping : List (AdapterEntry Name)) (err : PipeErr),
      resolve mapping ups ext = .error err → err = .resolution := by
  intro mapping
  induction mapping with
  | nil =>
    intro err h
    simp [resolve] at h
  | cons e rest ih =>
    intro err h
    rw [resolve] at h
    cases hb : lookupSource ups ext e.src with
    | none =>
      rw [hb] at h
      exact (Except.error.inj h).symm
    | some b =>
      rw [hb] at h
      dsimp only at h
      cases hv : alookup b e.key with
      | none =>
        rw [hv] at h
        exact (Except.error.inj h).symm
      | some v =>
        rw [hv] at h
        dsimp only at h
        cases hr : resolve rest ups ext with
        | error err2 =>
          rw [hr] at h
          exact (Except.error.inj h) ▸ ih err2 hr
        | ok tail =>
          rw [hr] at h
          cases h

/-- When every mapping entry is resolvable, `resolve` succeeds, and the
result pairs each entry's argument name with the value found at the
requested key of the named source. -/
theorem resolve_ok_of_resolvable (ups ext : List (Name × Bundle Name V)) :
    ∀ (mapping : List (AdapterEntry Name)),
      (∀ e ∈ mapping, ∃ b v, lookupSource ups ext e.src = some b ∧
        alookup b e.key = some v) →
      ∃ out, resolve mapping ups ext = .ok out ∧
        List.Forall₂ (fun (e : AdapterEntry Name) (p : Name × V) =>
          p.1 = e.arg ∧ ∃ b, lookupSource ups ext e.src = some b ∧
            alookup b e.key = some p.2) mapping out := by
  intro mapping
  induction mapping with
  | nil => intro _; exact ⟨[], rfl, List.Forall₂.nil⟩
  | cons e rest ih =>
    intro h
    obtain ⟨b, v, hb, hv⟩ := h e (List.mem_cons_self e rest)
    obtain ⟨out, hout, hfa⟩ := ih (fun e' he' => h e' (List.mem_cons_of_mem e he'))
    refine ⟨(e.arg, v) :: out, ?_, ?_⟩
    · rw [resolve, hb]
      dsimp only
      rw [hv]
      dsimp only
      rw [hout]
    · exact List.Forall₂.cons ⟨rfl, b, hb, hv⟩ hfa

/-- Resolution fails exactly when some entry names a source absent from
both maps, or a key absent from the found bundle. -/
theorem resolve_error_iff (ups ext : List (Name × Bundle Name V)) :
    ∀ (mapping : List (AdapterEntry Name)),
      (resolve mapping ups ext = .error .resolution ↔
        ∃ e ∈ mapping, lookupSource ups ext e.src = none ∨
          ∃ b, lookupSource ups ext e.src = some b ∧ alookup b e.key = none) := by
  intro mapping
  induction mapping with
  | nil => simp [resolve]
  | cons e rest ih =>
    cases hb : lookupSource ups ext e.src with
    | none =>
      rw [resolve, hb]
      constructor
      · intro _
        exact ⟨e, List.mem_cons_self e rest, Or.inl hb⟩
      · intro _
        rfl
    | some b =>
      cases hv : alookup b e.key with
      | none =>
        rw [resolve, hb]
        dsimp only
        rw [hv]
        constructor
        · intro _
          exact ⟨e, List.mem_cons_self e rest, Or.inr ⟨b, hb, hv⟩⟩
        · intro _
          rfl
      | some v =>
        rw [resolve, hb]
        dsimp only
        rw [hv]
        dsimp only
        cases hr : resolve rest ups ext with
        | error err2 =>
          have herr := resolve_error_eq ups ext rest err2 hr
          subst herr
          constructor
          · intro _
            obtain ⟨e', he', hbad⟩ := ih.mp hr
            exact ⟨e', List.mem_cons_of_mem e he', hbad⟩
          · intro _
            rfl
        | ok tail =>
          constructor
          · intro h
            cases h
          · rintro ⟨e', he', hbad⟩
            rcases List.mem_cons.mp he' with he1 | he2
            · subst he1
              rcases hbad with hbad | ⟨b', hb', hv'⟩
              · rw [hb] at hbad
                cases hbad
              · rw [hb] at hb'
                rw [← Option.some.inj hb'] at hv'
                rw [hv] at hv'
                cases hv'
            · have hcon := ih.mpr ⟨e', he2, hbad⟩
              rw [hr] at hcon
              cases hcon

end ResolveLemmas

/-! ## Claim theorems -/

/-- C1: within one top-level `fit_transform` or `transform` call (a call
starting from an empty per-call trace), a step with `cache_output` enabled
has its transformer's fit and transform invoked at most once, regardless
of the graph shape and of how many downstream steps consume its output;
in particular, for the notebook diamond with `cache_output` on `TF-IDF`,
evaluating `Ensembler` invokes the `TF-IDF` fit and transform exactly
once, not twice. -/
theorem cache_output_at_most_once :
    (∀ (Name V S : Type) [DecidableEq Name]
      (reg : Name → Option (StepDef Name V S)) (fuel : Nat) (visiting : List Name)
      (mode : Mode) (ext : List (Name × Bundle Name V)) (name : Name)
      (st : EngState Name V S) (s : Name) (step : StepDef Name V S),
      st.trace = [] → reg s = some step → step.cache_output = true →
      fitCount (evalStep reg fuel visiting mode ext name st).1.trace s ≤ 1 ∧
      tfmCount (evalStep reg fuel visiting mode ext name st).1.trace s ≤ 1) ∧
    (fitCount (evalStep (diamondReg true) 10 [] .fit diamondExt "Ensembler"
        (EngState.clean String Nat Nat)).1.trace "TF-IDF" = 1 ∧
      tfmCount (evalStep (diamondReg true) 10 [] .fit diamondExt "Ensembler"
        (EngState.clean String Nat Nat)).1.trace "TF-IDF" = 1 ∧
      (evalStep (diamondReg true) 10 [] .fit diamondExt "Ensembler"
        (EngState.clean String Nat Nat)).2.isOk = true) := by
  constructor
  · intro Name V S _ reg fuel visiting mode ext name st s step htr hreg hco
    have hinv : CacheInv reg st := by
      intro n stp _ _
      rw [htr]
      exact ⟨by simp [fitCount], by simp [tfmCount], fun _ => ⟨rfl, rfl⟩⟩
    have hres := evalStep_cacheInv reg fuel visiting mode ext name st hinv
    obtain ⟨h1, h2, _⟩ := hres s step hreg hco
    exact ⟨h1, h2⟩
  · refine ⟨by decide, by decide, by decide⟩

/-- Witness for C1: the at-most-once bound applied to the cached diamond
itself. -/
theorem cache_output_at_most_once_witness :
    fitCount (evalStep (diamondReg true) 10 [] .fit diamondExt "Ensembler"
        (EngState.clean String Nat Nat)).1.trace "TF-IDF" ≤ 1 ∧
    tfmCount (evalStep (diamondReg true) 10 [] .fit diamondExt "Ensembler"
        (EngState.clean String Nat Nat)).1.trace "TF-IDF" ≤ 1 :=
  cache_output_at_most_once.1 String Nat Nat (diamondReg true) 10 [] .fit
    diamondExt "Ensembler" (EngState.clean String Nat Nat) "TF-IDF" _
    rfl rfl rfl

/-- C2: `Adapter.resolve` returns, for every mapping entry
`arg ↦ (source, key)`, the value found at that key — looking the source up
in upstream outputs first, then external inputs — and raises
ResolutionError exactly when a named source is absent from both maps or
the requested key is absent from the found bundle; on the notebook's
TF-IDF example it returns `{"X": v1, "y": v2}`, and omitting the `"y"`
source from both maps raises ResolutionError.  (`resolve` is a plain
function of its three inputs, hence pure.) -/
theorem adapter_resolve_correct :
    (∀ (Name V : Type) [DecidableEq Name]
      (ups ext : List (Name × Bundle Name V)) (mapping : List (AdapterEntry Name)),
      (∀ e ∈ mapping, ∃ b v, lookupSource ups ext e.src = some b ∧
        alookup b e.key = some v) →
      ∃ out, resolve mapping ups ext = .ok out ∧
        List.Forall₂ (fun (e : AdapterEntry Name) (p : Name × V) =>
          p.1 = e.arg ∧ ∃ b, lookupSource ups ext e.src = some b ∧
            alookup b e.key = some p.2) mapping out) ∧
    (∀ (Name V : Type) [DecidableEq Name]
      (ups ext : List (Name × Bundle Name V)) (mapping : List (AdapterEntry Name)),
      resolve mapping ups ext = .error .resolution ↔
        ∃ e ∈ mapping, lookupSource ups ext e.src = none ∨
          ∃ b, lookupSource ups ext e.src = some b ∧ alookup b e.key = none) ∧
    (∀ v1 v2 : Nat,
      resolve [⟨"X", "TF-IDF", "X"⟩, ⟨"y", "input", "label"⟩]
        [("TF-IDF", [("X", v1)])] [("input", [("label", v2)])]
        = .ok [("X", v1), ("y", v2)]) ∧
    (∀ v1 : Nat,
      resolve [⟨"X", "TF-IDF", "X"⟩, ⟨"y", "input", "label"⟩]
        [("TF-IDF", [("X", v1)])] [] = .error .resolution) := by
  refine ⟨?_, ?_, ?_, ?_⟩
  · intro Name V _ ups ext mapping h
    exact resolve_ok_of_resolvable ups ext mapping h
  · intro Name V _ ups ext mapping
    exact resolve_error_iff ups ext mapping
  · intro v1 v2
    simp [resolve, lookupSource, alookup]
  · intro v1
    simp [resolve, lookupSource, alookup]

/-- Witness for C2: the TF-IDF example at concrete values, through the
theorem. -/
theorem adapter_resolve_correct_witness :
    resolve [⟨"X", "TF-IDF", "X"⟩, ⟨"y", "input", "label"⟩]
      [("TF-IDF", [("X", 41)])] [("input", [("label", 42)])]
      = .ok [("X", 41), ("y", 42)] :=
  adapter_resolve_correct.2.2.1 41 42

/-- C3: the top-level `transform` entry point never invokes any
transformer's fit operation — the fit events after the call are exactly
those before it — and on a system with no fitted, persisted or loaded
state for any step, `transform` always fails with an error, the failure
arising as a NotFittedError at the step whose state is missing. -/
theorem transform_never_fits :
    (∀ (Name V S : Type) [DecidableEq Name]
      (reg : Name → Option (StepDef Name V S)) (fuel : Nat) (visiting : List Name)
      (ext : List (Name × Bundle Name V)) (name : Name) (st : EngState Name V S),
      fitEvents (evalStep reg fuel visiting .transform ext name st).1.trace =
        fitEvents st.trace) ∧
    (∀ (Name V S : Type) [DecidableEq Name]
      (reg : Name → Option (StepDef Name V S)) (fuel : Nat) (visiting : List Name)
      (ext : List (Name × Bundle Name V)) (name : Name) (st : EngState Name V S),
      Unfitted st →
      ∃ e, evalStep reg fuel visiting .transform ext name st = (st, .error e)) ∧
    (∀ (Name V S : Type) [DecidableEq Name] (name : Name) (step : StepDef Name V S)
      (args : Bundle Name V) (st : EngState Name V S),
      getState st name = none →
      finishStep .transform name step args st = (st, .error .notFitted)) := by
  refine ⟨?_, ?_, ?_⟩
  · intro Name V S _ reg fuel visiting ext name st
    exact evalStep_transform_fitEvents reg fuel visiting ext name st
  · intro Name V S _ reg fuel visiting ext name st hU
    exact evalStep_transform_unfitted reg fuel visiting ext name st hU
  · intro Name V S _ name step args st hg
    unfold finishStep
    rw [hg]

/-- Witness for C3: on the notebook chain with nothing fitted, `transform`
of `LogReg` fails and fits nothing. -/
theorem transform_never_fits_witness :
    (fitEvents (evalStep chainReg 5 [] .transform chainExt "LogReg"
        (EngState.clean String Nat Nat)).1.trace = []) ∧
    (∃ e, evalStep chainReg 5 [] .transform chainExt "LogReg"
        (EngState.clean String Nat Nat) = (EngState.clean String Nat Nat, .error e)) :=
  ⟨transform_never_fits.1 String Nat Nat chainReg 5 [] chainExt "LogReg"
      (EngState.clean String Nat Nat),
    transform_never_fits.2.1 String Nat Nat chainReg 5 [] chainExt "LogReg"
      (EngState.clean String Nat Nat) ⟨rfl, rfl, rfl, rfl⟩⟩

/-- C4: for a step with `load_persisted_output` enabled and a persisted
output record present, `transform` returns the persisted bundle with the
state (hence the trace: no transformer invocation, no upstream
evaluation) unchanged, and it returns the same bundle for any two
external input bundles — the documented staleness hazard. -/
theorem load_persisted_output_stale :
    ∀ (Name V S : Type) [DecidableEq Name]
      (reg : Name → Option (StepDef Name V S)) (fuel : Nat) (name : Name)
      (step : StepDef Name V S) (b : Bundle Name V) (st : EngState Name V S)
      (ext ext' : List (Name × Bundle Name V)),
      reg name = some step → step.cache_output = false →
      step.load_persisted_output = true → alookup st.pouts name = some b →
      evalStep reg (fuel + 1) [] .transform ext name st = (st, .ok b) ∧
      evalStep reg (fuel + 1) [] .transform ext name st =
        evalStep reg (fuel + 1) [] .transform ext' name st := by
  intro Name V S _ reg fuel name step b st ext ext' hreg hco hlp hb
  have h1 := load_persisted_short_circuit reg fuel name step b st ext hreg hco hlp hb
  have h2 := load_persisted_short_circuit reg fuel name step b st ext' hreg hco hlp hb
  exact ⟨h1, h1.trans h2.symm⟩

/-- Witness for C4: the notebook's `TF-IDF` step with a stale persisted
record returns it for two different data bundles. -/
theorem load_persisted_output_stale_witness :
    evalStep persistReg 8 [] .transform diamondExt "TF-IDF"
        ⟨[], [], [("TF-IDF", [("X", 99)])], [], []⟩
      = (⟨[], [], [("TF-IDF", [("X", 99)])], [], []⟩, .ok [("X", 99)]) ∧
    evalStep persistReg 8 [] .transform diamondExt "TF-IDF"
        ⟨[], [], [("TF-IDF", [("X", 99)])], [], []⟩
      = evalStep persistReg 8 [] .transform [("input", [("text", 7), ("label", 8)])]
          "TF-IDF" ⟨[], [], [("TF-IDF", [("X", 99)])], [], []⟩ :=
  load_persisted_output_stale String Nat Nat persistReg 7 "TF-IDF" _
    [("X", 99)] ⟨[], [], [("TF-IDF", [("X", 99)])], [], []⟩ diamondExt
    [("input", [("text", 7), ("label", 8)])] rfl rfl rfl rfl

/-- C5: on the notebook's linear chain `Normalizer → PCA → LogReg` with no
caching or persistence and no prior fitted state, `fit_transform` of
`LogReg` succeeds and invokes exactly the six transformer operations
Normalizer.fit, Normalizer.transform, PCA.fit, PCA.transform, LogReg.fit,
LogReg.transform, in that order, each exactly once. -/
theorem chain_fit_transform_order :
    (evalStep chainReg 10 [] .fit chainExt "LogReg"
        (EngState.clean String Nat Nat)).1.trace =
      [.fit "Normalizer", .tfm "Normalizer", .fit "PCA", .tfm "PCA",
        .fit "LogReg", .tfm "LogReg"] ∧
    ((evalStep chainReg 10 [] .fit chainExt "LogReg"
        (EngState.clean String Nat Nat)).2).isOk = true := by
  exact ⟨by decide, by decide⟩

/-- C6: with `cache_output` disabled and no persistence short-circuits, a
shared step is evaluated once per downstream consumer: in the fan family
with `N` consumers the shared step's transform runs exactly `N` times,
and in the notebook diamond with `cache_output` off on `TF-IDF`,
evaluating `Ensembler` invokes the `TF-IDF` transform exactly twice. -/
theorem no_cache_once_per_consumer :
    (∀ (N f : Nat) (ext : List (Nat × Bundle Nat Nat)),
      ∃ st' out, evalStep (regFan N) (f + 3) [] .fit ext (N + 1)
          (EngState.clean Nat Nat Nat) = (st', .ok out) ∧
        tfmCount st'.trace 0 = N) ∧
    (tfmCount (evalStep (diamondReg false) 10 [] .fit diamondExt "Ensembler"
        (EngState.clean String Nat Nat)).1.trace "TF-IDF" = 2 ∧
      (evalStep (diamondReg false) 10 [] .fit diamondExt "Ensembler"
        (EngState.clean String Nat Nat)).2.isOk = true) :=
  ⟨fun N f ext => fan_eval N f ext, by decide, by decide⟩

/-- C7: the cyclic graph `A ↔ B` is rejected with a GraphError at first
evaluation, with the engine state unchanged (empty trace: no
transformer's fit or transform was invoked), for every evaluation mode
and every recursion budget — in particular evaluation never diverges. -/
theorem cycle_rejected :
    ∀ (fuel : Nat) (mode : Mode),
      evalStep cycleReg (fuel + 3) [] mode [] "A" (EngState.clean String Nat Nat)
          = (EngState.clean String Nat Nat, .error .graph) ∧
      evalStep cycleReg (fuel + 3) [] mode [] "B" (EngState.clean String Nat Nat)
          = (EngState.clean String Nat Nat, .error .graph) := by
  intro fuel mode
  constructor <;>
    simp [evalStep, cycleReg, cacheCheck, persistCheck, evalList, EngState.clean]

/-- C8: persist-then-load round trip.  For `NormalizationTransformer`
(whose record is its whole state `[mean, std]`) and for every
estimator-wrapper transformer of the notebooks (whose record is the whole
`self.estimator`), loading a persisted record into a fresh instance yields
a transformer whose transform output on any input is identical to the
originally fitted instance's. -/
theorem persist_load_round_trip :
    (∀ (t : NormalizationTransformer) (X : List (List ℚ)),
      (NormalizationTransformer.fresh.load t.persist).transform X = t.transform X) ∧
    (∀ (α β γ : Type) (predict : α → β → γ) (told tfresh : EstimatorTransformer α)
      (X : β),
      (tfresh.load told.persist).transform predict X = told.transform predict X) :=
  ⟨fun _ _ => rfl, fun _ _ _ _ _ _ _ => rfl⟩

/-- C9: `NormalizationTransformer.transform` computes `(X - mean) / std`
element-wise from the fields stored by fit; it is defined only once fit
has stored both fields (on a fresh instance both are `None` and the
operation is undefined), and the division is unguarded: a zero entry in
the stored std does not make transform fall into any error path. -/
theorem normalization_transform_formula :
    (∀ (m s : List ℚ) (X : List (List ℚ)) (i j : Nat)
      (hi : i < X.length) (hjX : j < X[i].length)
      (hjm : j < m.length) (hjs : j < s.length),
      ∃ Y, NormalizationTransformer.transform ⟨some m, some s⟩ X = some Y ∧
        ∃ (hiY : i < Y.length) (hjY : j < Y[i].length),
          Y[i][j] = (X[i][j] - m[j]) / s[j]) ∧
    (∀ (t : NormalizationTransformer) (X : List (List ℚ)),
      t.mean = none ∨ t.std = none → t.transform X = none) ∧
    (∀ (m s : List ℚ) (X : List (List ℚ)), 0 ∈ s →
      (NormalizationTransformer.transform ⟨some m, some s⟩ X).isSome = true) := by
  refine ⟨?_, ?_, ?_⟩
  · intro m s X i j hi hjX hjm hjs
    refine ⟨_, rfl, ?_, ?_, ?_⟩
    · simpa [NormalizationTransformer.transform] using hi
    · simp only [NormalizationTransformer.transform, List.getElem_map,
        List.length_map, List.length_zip]
      omega
    · simp [NormalizationTransformer.transform, List.getElem_map, List.getElem_zip]
  · intro t X h
    obtain ⟨mo, so⟩ := t
    rcases h with h | h
    · subst h
      cases so <;> rfl
    · subst h
      cases mo <;> rfl
  · intro m s X _
    rfl

/-- Witness for C9: concrete instantiation — transform of a fitted
state on a one-element matrix hits the formula, a fresh instance maps to
`none`, and a zero std does not block transform. -/
theorem normalization_transform_formula_witness :
    (∃ Y, NormalizationTransformer.transform ⟨some [3], some [2]⟩ [[7]] = some Y ∧
      ∃ (hiY : 0 < Y.length) (hjY : 0 < Y[0].length), Y[0][0] = ((7 : ℚ) - 3) / 2) ∧
    NormalizationTransformer.fresh.transform [[7]] = none ∧
    (NormalizationTransformer.transform ⟨some [3], some [0]⟩ [[7]]).isSome = true :=
  ⟨normalization_transform_formula.1 [3] [2] [[7]] 0 0 (by decide) (by decide)
      (by decide) (by decide),
    normalization_transform_formula.2.1 NormalizationTransformer.fresh [[7]]
      (Or.inl rfl),
    normalization_transform_formula.2.2 [3] [0] [[7]] (by decide)⟩

/-- C10: `AvgTransformer.transform` returns `{'y_proba': (y_proba_1 +
y_proba_2) / 2}`, the element-wise average; it is commutative in its two
arguments; and since `fit` returns the (empty) state unchanged,
`fit_transform` coincides with `transform` on the same inputs. -/
theorem avg_transformer_correct :
    (∀ (y1 y2 : List (List ℚ)) (i j : Nat)
      (hi1 : i < y1.length) (hi2 : i < y2.length)
      (hj1 : j < y1[i].length) (hj2 : j < y2[i].length),
      ∃ (him : i < (matAvg y1 y2).length) (hjm : j < (matAvg y1 y2)[i].length),
        (matAvg y1 y2)[i][j] = (y1[i][j] + y2[i][j]) / 2) ∧
    (∀ y1 y2 : List (List ℚ),
      AvgTransformer.transform y1 y2 = AvgTransformer.transform y2 y1) ∧
    (∀ (u : Unit) (y1 y2 : List (List ℚ)), AvgTransformer.fit u y1 y2 = u) ∧
    (∀ y1 y2 : List (List ℚ),
      AvgTransformer.fitTransform y1 y2 = AvgTransformer.transform y1 y2) := by
  refine ⟨?_, ?_, fun u y1 y2 => rfl, fun y1 y2 => rfl⟩
  · intro y1 y2 i j hi1 hi2 hj1 hj2
    refine ⟨?_, ?_, ?_⟩
    · simp only [matAvg, List.length_zipWith]
      omega
    · simp only [matAvg, List.getElem_zipWith, List.length_zipWith]
      omega
    · simp [matAvg, List.getElem_zipWith]
  · intro y1 y2
    unfold AvgTransformer.transform
    have hcomm : matAvg y1 y2 = matAvg y2 y1 := by
      unfold matAvg
      rw [List.zipWith_comm_of_comm]
      intro r1 r2
      rw [List.zipWith_comm_of_comm]
      intro a b
      ring_nf
    rw [hcomm]

/-- Witness for C10: the element-wise average at a concrete entry. -/
theorem avg_transformer_correct_witness :
    ∃ (him : 0 < (matAvg [[1]] [[3]]).length)
      (hjm : 0 < (matAvg [[1]] [[3]])[0].length),
      (matAvg [[1]] [[3]])[0][0] = ((1 : ℚ) + 3) / 2 :=
  avg_transformer_correct.1 [[1]] [[3]] 0 0 (by decide) (by decide)
    (by decide) (by decide)

end Steppy
